import Mathlib

/-!
Verification of the `ubc` repository: a shallow embedding of
`src/docs/write_components_doc.py` (the documentation generator) and
`src/ubc/bend90.py` (the bend component generator), together with proofs
of the specified properties.

Conventions of the embedding:
* Python strings are Lean `String`s; the generated output file is the
  concatenation of the strings passed to `f.write`, in order.
* The component registry (the `cells` mapping) is a list of
  (name, parameter signature) pairs with unique keys; a parameter
  signature is the list of parameters in declaration order, each with an
  optional default value (`none` models `inspect.Parameter.empty`).
* Python runtime values that can occur as parameter defaults are
  modelled by `PyVal`.  A `float` default is represented by its `repr`
  string, since the generator only ever observes `repr` of a float.
* Rational numbers stand in for Python floats in the geometry model;
  the numeric values that appear (0.1 offsets, format rounding) are
  exact in binary floating point as well, so nothing is lost.
-/

set_option maxRecDepth 8000

/-! ## Line splitting machinery

`splitNL` splits a character list at newline characters, keeping empty
segments (the semantics of Python text lines / `str.split("\n")`). It is
the tool used to state "the output file contains such-and-such line". -/

def splitNL : List Char → List (List Char)
  | [] => [[]]
  | c :: cs =>
    if c = '\n' then [] :: splitNL cs
    else (splitNL cs).modifyHead (fun l => c :: l)

theorem splitNL_ne_nil (l : List Char) : splitNL l ≠ [] := by
  induction l with
  | nil => simp [splitNL]
  | cons c cs ih =>
    by_cases h : c = '\n'
    · simp [splitNL, h]
    · cases hs : splitNL cs with
      | nil => exact absurd hs ih
      | cons a as => simp [splitNL, h, hs]

theorem splitNL_nl (l : List Char) : splitNL ('\n' :: l) = [] :: splitNL l := by
  simp [splitNL]

theorem splitNL_seg (s : List Char) (h : '\n' ∉ s) :
    ∀ l, splitNL (s ++ l) = (s ++ (splitNL l).headD []) :: (splitNL l).tail := by
  induction s with
  | nil =>
    intro l
    cases hs : splitNL l with
    | nil => exact absurd hs (splitNL_ne_nil l)
    | cons a as => simp [hs]
  | cons c cs ih =>
    intro l
    have hc : c ≠ '\n' := fun hc => h (hc ▸ List.mem_cons_self c cs)
    have hcs : '\n' ∉ cs := fun hm => h (List.mem_cons_of_mem c hm)
    simp only [List.cons_append, splitNL, if_neg hc]
    change List.modifyHead (fun x => c :: x) (splitNL (cs ++ l)) = _
    rw [ih hcs l]
    rfl

/-! String-level helpers. -/

theorem data_app (a b : String) : (a ++ b).data = a.data ++ b.data := by
  cases a; cases b; rfl

theorem str_ext {a b : String} (h : a.data = b.data) : a = b := by
  cases a; cases b; exact congrArg String.mk h

theorem mk_data (s : String) : String.mk s.data = s := by
  cases s; rfl

theorem str_assoc (a b c : String) : a ++ b ++ c = a ++ (b ++ c) :=
  str_ext (by simp only [data_app, List.append_assoc])

theorem str_append_empty (s : String) : s ++ "" = s :=
  str_ext (by simp only [data_app]; exact List.append_nil _)

/-- `nlFree s` says `s` contains no newline character, i.e. it fits on
one text line. -/
def nlFree (s : String) : Prop := '\n' ∉ s.data

instance (s : String) : Decidable (nlFree s) := by unfold nlFree; infer_instance

theorem nlFree_app {a b : String} (ha : nlFree a) (hb : nlFree b) : nlFree (a ++ b) := by
  unfold nlFree at *
  rw [data_app]
  intro h
  rcases List.mem_append.mp h with h | h
  · exact ha h
  · exact hb h

/-- The list of text lines of a string (the last line is the segment after
the final newline, possibly empty). -/
def linesOf (s : String) : List String := (splitNL s.data).map String.mk

theorem linesOf_empty : linesOf "" = [""] := rfl

theorem linesOf_peel_nl (x : String) : linesOf ("\n" ++ x) = "" :: linesOf x := by
  unfold linesOf
  rw [data_app]
  have h : ("\n" : String).data = ['\n'] := rfl
  rw [h, List.singleton_append, splitNL_nl, List.map_cons]

theorem linesOf_peel_seg (s x : String) (h : nlFree s) :
    linesOf (s ++ ("\n" ++ x)) = s :: linesOf x := by
  unfold linesOf
  rw [data_app, data_app]
  have h1 : ("\n" : String).data = ['\n'] := rfl
  rw [h1, List.singleton_append, splitNL_seg s.data h, splitNL_nl]
  simp [mk_data]

theorem linesOf_peel_seg2 (s t x : String) (hs : nlFree s) (ht : nlFree t) :
    linesOf (s ++ (t ++ ("\n" ++ x))) = (s ++ t) :: linesOf x := by
  rw [← str_assoc s t ("\n" ++ x)]
  exact linesOf_peel_seg (s ++ t) x (nlFree_app hs ht)

theorem linesOf_peel_seg5 (s t u v w x : String)
    (hs : nlFree s) (ht : nlFree t) (hu : nlFree u) (hv : nlFree v) (hw : nlFree w) :
    linesOf (s ++ (t ++ (u ++ (v ++ (w ++ ("\n" ++ x)))))) =
      (s ++ t ++ u ++ v ++ w) :: linesOf x := by
  rw [← str_assoc s t, ← str_assoc (s ++ t) u, ← str_assoc (s ++ t ++ u) v,
    ← str_assoc (s ++ t ++ u ++ v) w]
  exact linesOf_peel_seg _ x
    (nlFree_app (nlFree_app (nlFree_app (nlFree_app hs ht) hu) hv) hw)

/-- Number of occurrences of the string `t` in a list of strings. -/
def countLine (t : String) : List String → Nat
  | [] => 0
  | s :: rest => (if s = t then 1 else 0) + countLine t rest

theorem countLine_append (t : String) (l1 l2 : List String) :
    countLine t (l1 ++ l2) = countLine t l1 + countLine t l2 := by
  induction l1 with
  | nil => simp [countLine]
  | cons s rest ih => simp [countLine, ih]; omega

theorem countLine_flatten (t : String) (ls : List (List String)) :
    countLine t ls.flatten = (ls.map (countLine t)).sum := by
  induction ls with
  | nil => simp [countLine]
  | cons l rest ih => simp [countLine_append, ih]

theorem countLine_eq_one {t : String} {l : List String}
    (hd : l.Nodup) (hm : t ∈ l) : countLine t l = 1 := by
  induction l with
  | nil => cases hm
  | cons s rest ih =>
    rcases List.mem_cons.mp hm with h | h
    · subst h
      have : countLine t rest = 0 := by
        have hni : t ∉ rest := (List.nodup_cons.mp hd).1
        clear ih hd hm
        induction rest with
        | nil => rfl
        | cons a as ih2 =>
          have : a ≠ t := fun he => hni (he ▸ List.mem_cons_self a as)
          simp [countLine, this, ih2 (fun hm2 => hni (List.mem_cons_of_mem a hm2))]
      simp [countLine, this]
    · have hne : s ≠ t := fun he => (List.nodup_cons.mp hd).1 (he ▸ h)
      simp [countLine, hne, ih (List.nodup_cons.mp hd).2 h]

theorem countLine_sum_ite (t : String) (l : List String) :
    (l.map (fun s => if s = t then 1 else 0)).sum = countLine t l := by
  induction l with
  | nil => rfl
  | cons s rest ih => simp [countLine, ih]

/-! Helpers for proving that distinct lines are distinct strings. -/

theorem ne_of_data_head {a b : String} (h : a.data.head? ≠ b.data.head?) : a ≠ b :=
  fun he => h (he ▸ rfl)

theorem ne_of_length {a b : String} (h : a.length ≠ b.length) : a ≠ b :=
  fun he => h (he ▸ rfl)

theorem headQ_append {l1 l2 : List Char} {c : Char} (h : l1.head? = some c) :
    (l1 ++ l2).head? = some c := by
  cases l1 with
  | nil => cases h
  | cons a as => simpa using h

theorem str_length_app (a b : String) : (a ++ b).length = a.length + b.length := by
  cases a with
  | mk as =>
    cases b with
    | mk bs =>
      show (as ++ bs).length = as.length + bs.length
      exact List.length_append as bs

/-! ## Sorting of registry keys

Python's `sorted` on strings orders them lexicographically by code
point.  `lexLe` is that order, executable and provably total,
transitive and antisymmetric. -/

def lexLe : List Char → List Char → Bool
  | [], _ => true
  | _ :: _, [] => false
  | a :: as, b :: bs =>
    if a < b then true
    else if b < a then false
    else lexLe as bs

def strLe (a b : String) : Bool := lexLe a.data b.data

def strLeP (a b : String) : Prop := strLe a b = true

instance : DecidableRel strLeP := fun _ _ => instDecidableEqBool _ _

theorem lexLe_cons (a b : Char) (as bs : List Char) :
    lexLe (a :: as) (b :: bs) =
      if a < b then true else if b < a then false else lexLe as bs := rfl

theorem lexLe_total : ∀ as bs, lexLe as bs = true ∨ lexLe bs as = true
  | [], _ => Or.inl rfl
  | _ :: _, [] => Or.inr rfl
  | a :: as, b :: bs => by
    by_cases h1 : a < b
    · left; rw [lexLe_cons, if_pos h1]
    · by_cases h2 : b < a
      · right; rw [lexLe_cons, if_pos h2]
      · rcases lexLe_total as bs with h | h
        · left; rw [lexLe_cons, if_neg h1, if_neg h2]; exact h
        · right; rw [lexLe_cons, if_neg h2, if_neg h1]; exact h

theorem lexLe_trans : ∀ as bs cs, lexLe as bs = true → lexLe bs cs = true →
    lexLe as cs = true
  | [], _, _ => fun _ _ => rfl
  | _ :: _, [], _ => fun h _ => by cases h
  | _ :: _, _ :: _, [] => fun _ h => by cases h
  | a :: as, b :: bs, c :: cs => by
    intro h1 h2
    rw [lexLe_cons] at h1 h2 ⊢
    by_cases hab : a < b
    · by_cases hbc : b < c
      · rw [if_pos (lt_trans hab hbc)]
      · by_cases hcb : c < b
        · rw [if_neg hbc, if_pos hcb] at h2; cases h2
        · have he : b = c := le_antisymm (not_lt.mp hcb) (not_lt.mp hbc)
          rw [if_pos (he ▸ hab)]
    · by_cases hba : b < a
      · rw [if_neg hab, if_pos hba] at h1; cases h1
      · have he : a = b := le_antisymm (not_lt.mp hba) (not_lt.mp hab)
        subst he
        rw [if_neg hab, if_neg hba] at h1
        by_cases hbc : a < c
        · rw [if_pos hbc]
        · by_cases hcb : c < a
          · rw [if_neg hbc, if_pos hcb] at h2; cases h2
          · rw [if_neg hbc, if_neg hcb] at h2 ⊢
            exact lexLe_trans as bs cs h1 h2

theorem lexLe_antisymm : ∀ as bs, lexLe as bs = true → lexLe bs as = true → as = bs
  | [], [] => fun _ _ => rfl
  | [], _ :: _ => fun _ h => by cases h
  | _ :: _, [] => fun h _ => by cases h
  | a :: as, b :: bs => by
    intro h1 h2
    rw [lexLe_cons] at h1 h2
    by_cases hab : a < b
    · by_cases hba : b < a
      · exact absurd (lt_trans hab hba) (lt_irrefl a)
      · rw [if_neg hba, if_pos hab] at h2; cases h2
    · by_cases hba : b < a
      · rw [if_neg hab, if_pos hba] at h1; cases h1
      · have he : a = b := le_antisymm (not_lt.mp hba) (not_lt.mp hab)
        subst he
        rw [if_neg hab] at h1 h2
        simp only [if_neg hab] at h1 h2
        rw [lexLe_antisymm as bs h1 h2]

instance : IsTotal String strLeP :=
  ⟨fun a b => lexLe_total a.data b.data⟩

instance : IsTrans String strLeP :=
  ⟨fun a b c => lexLe_trans a.data b.data c.data⟩

instance : IsAntisymm String strLeP :=
  ⟨fun a b h1 h2 => str_ext (lexLe_antisymm a.data b.data h1 h2)⟩

/-! ## Model of Python values occurring as parameter defaults

`repr` of a nonnegative integer is its decimal digit string; `natStr`
renders it (fuel-based so that it evaluates inside the kernel). -/

def natDigitsAux : Nat → Nat → List Char → List Char
  | 0, _, acc => acc
  | fuel + 1, n, acc =>
    if n < 10 then Nat.digitChar n :: acc
    else natDigitsAux fuel (n / 10) (Nat.digitChar (n % 10) :: acc)

def natStr (n : Nat) : String := String.mk (natDigitsAux (n + 1) n [])

/-- Values a Python parameter default can take, as far as the
documentation generator distinguishes them.  `bool` is kept separate
because Python's `bool` is a subtype of `int` and therefore passes the
`isinstance(..., (int, float, str, tuple))` test.  A `float` is
represented by its `repr` string: the generator only ever applies
`repr` to a float, and rendering binary floating point is outside the
scope of this model. -/
inductive PyVal where
  | int (n : Int)
  | bool (b : Bool)
  | float (printed : String)
  | str (s : String)
  | tuple (vs : List PyVal)
  | pynone
  | list (vs : List PyVal)
  | dict (ps : List (PyVal × PyVal))

/-- `repr` of one character inside a single-quoted Python string
literal (the common escapes; exotic non-printable characters are out of
scope of the claims). -/
def escChar (c : Char) : String :=
  if c = '\\' then "\\\\"
  else if c = '\x27' then "\\\x27"
  else if c = '\n' then "\\n"
  else if c = '\r' then "\\r"
  else if c = '\t' then "\\t"
  else String.mk [c]

def strBody : List Char → String
  | [] => ""
  | c :: cs => escChar c ++ strBody cs

/-- `repr` of a Python `str` (always single-quoted in this model). -/
def strRepr (s : String) : String := "\x27" ++ strBody s.data ++ "\x27"

mutual

/-- Python's `repr`, on the modelled values. -/
def pyRepr : PyVal → String
  | .int n => (if n < 0 then "-" else "") ++ natStr n.natAbs
  | .bool b => if b then "True" else "False"
  | .float printed => printed
  | .str s => strRepr s
  | .tuple [] => "()"
  | .tuple [v] => "(" ++ pyRepr v ++ ",)"
  | .tuple (v :: w :: vs) => "(" ++ pyRepr v ++ pyReprRest (w :: vs) ++ ")"
  | .pynone => "None"
  | .list [] => "[]"
  | .list (v :: vs) => "[" ++ pyRepr v ++ pyReprRest vs ++ "]"
  | .dict [] => "\x7b\x7d"
  | .dict ((k, v) :: ps) => "\x7b" ++ pyRepr k ++ ": " ++ pyRepr v ++ pyReprPairs ps ++ "\x7d"

def pyReprRest : List PyVal → String
  | [] => ""
  | v :: vs => ", " ++ pyRepr v ++ pyReprRest vs

def pyReprPairs : List (PyVal × PyVal) → String
  | [] => ""
  | (k, v) :: ps => ", " ++ pyRepr k ++ ": " ++ pyRepr v ++ pyReprPairs ps

end

/-- The `isinstance(default, (int, float, str, tuple))` test of the
generator.  Python `bool` is a subtype of `int`, so a `bool` default
passes; `None`, lists and dicts do not. -/
def isinstancePrim : PyVal → Bool
  | .int _ => true
  | .bool _ => true
  | .float _ => true
  | .str _ => true
  | .tuple _ => true
  | .pynone => false
  | .list _ => false
  | .dict _ => false

/-- A parameter of a registered callable: its name and its default
value (`none` models `inspect.Parameter.empty`, i.e. no default). -/
structure Param where
  name : String
  default : Option PyVal

/-- `isinstance` applied to a parameter's default; a missing default
(`inspect.Parameter.empty`) is not an instance of any of the four
primitive types. -/
def isPrimDefault : Option PyVal → Bool
  | some v => isinstancePrim v
  | none => false

/-- `repr(default)`.  The `none` branch models
`repr(inspect.Parameter.empty)`; it is never reached by the generator
because an empty default fails the `isinstance` filter. -/
def reprDefault : Option PyVal → String
  | some v => pyRepr v
  | none => "<class inspect._empty>"

/-! ## The documentation generator (src/docs/write_components_doc.py) -/

/-- Python's `name in xs` on a list/tuple/set of strings. -/
def strMem (s : String) : List String → Bool
  | [] => false
  | t :: rest => if s = t then true else strMem s rest

/-- Python's `name.startswith("_")`. -/
def startsWithUnderscore (s : String) : Bool :=
  match s.data with
  | [] => false
  | c :: _ => c = '_'

/-- Python's `", ".join(entries)`. -/
def joinComma : List String → String
  | [] => ""
  | [s] => s
  | s :: t :: rest => s ++ ", " ++ joinComma (t :: rest)

/-- Sequential concatenation of the chunks passed to `f.write`. -/
def joinChunks : List String → String
  | [] => ""
  | c :: cs => c ++ joinChunks cs

/-- The skip set of the script (registry entries not documented). -/
def skipDefault : List String :=
  ["LIBRARY", "circuit_names", "component_factory", "component_names",
   "container_names", "component_names_test_ports", "component_names_skip_test",
   "component_names_skip_test_ports", "dataclasses", "library",
   "waveguide_template"]

/-- The `skip_plot` tuple of the script. -/
def skip_plot : List String := ["add_fiber_array_siepic"]

/-- The `skip_settings` tuple of the script. -/
def skip_settings : List String := ["flatten", "safe_cell_names"]

/-- The keyword-argument fragments
`f"{p}={repr(sig.parameters[p].default)}"` for the parameters whose
default is a primitive scalar/tuple value and whose name is not in the
settings-skip set, in declaration order. -/
def kwargsList : List Param → List String → List String
  | [], _ => []
  | p :: ps, ss =>
    if isPrimDefault p.default && !(strMem p.name ss) then
      (p.name ++ "=" ++ reprDefault p.default) :: kwargsList ps ss
    else kwargsList ps ss

/-- The `kwargs` string interpolated into the example block. -/
def kwargsText (sig : List Param) (ss : List String) : String :=
  joinComma (kwargsList sig ss)

/-- The fixed title block written first. -/
def headerText : String :=
  "\n\nHere are the components available in the PDK\n\n\nComponents\n=============================\n"

/-- The `autofunction` cross-reference line for a registry name. -/
def dirLineFor (name : String) : String :=
  ".. autofunction:: ubcpdk.components." ++ name

/-- The reconstruction call line of the example block. -/
def getComponentLine (name kwargs : String) : String :=
  "  c = ubcpdk.PDK.get_component(\"" ++ name ++ "\", " ++ kwargs ++ ")"

/-- The chunk written for a name in the plot-skip set. -/
def sectionNoPlot (name : String) : String :=
  "\n\n" ++ name ++
    "\n----------------------------------------------------\n\n.. autofunction:: ubcpdk.components." ++
    name ++ "\n\n"

/-- The chunk written for a documented name not in the plot-skip set. -/
def sectionPlot (name kwargs : String) : String :=
  "\n\n" ++ name ++
    "\n----------------------------------------------------\n\n.. autofunction:: ubcpdk.components." ++
    name ++
    "\n\n.. plot::\n  :include-source:\n\n  import ubcpdk\n\n  c = ubcpdk.PDK.get_component(\"" ++
    name ++ "\", " ++ kwargs ++ ")\n  c.plot()\n\n"

/-- The chunk written for one documented registry name. -/
def sectionFor (name : String) (sig : List Param) (sp ss : List String) : String :=
  if strMem name sp then sectionNoPlot name
  else sectionPlot name (kwargsText sig ss)

/-- `cells[name]`: the first binding of `name` in the registry. -/
def lookupSig : List (String × List Param) → String → Option (List Param)
  | [], _ => none
  | (k, v) :: rest, n => if n = k then some v else lookupSig rest n

def sigOf (reg : List (String × List Param)) (n : String) : List Param :=
  (lookupSig reg n).getD []

/-- `sorted(cells.keys())`. -/
def sortedKeys (reg : List (String × List Param)) : List String :=
  List.insertionSort strLeP (reg.map Prod.fst)

/-- The names the loop writes a section for, in output order. -/
def emittedNames (reg : List (String × List Param)) (skip : List String) : List String :=
  (sortedKeys reg).filter (fun n => !(strMem n skip || startsWithUnderscore n))

/-- The emitted sections: (name, chunk text) in output order. -/
def docSections (reg : List (String × List Param)) (skip sp ss : List String) :
    List (String × String) :=
  (emittedNames reg skip).map (fun n => (n, sectionFor n (sigOf reg n) sp ss))

/-- The full contents of `components.rst`: the title block followed by
the per-name chunks, exactly as written by the script. -/
def docFile (reg : List (String × List Param)) (skip sp ss : List String) : String :=
  headerText ++ joinChunks ((docSections reg skip sp ss).map Prod.snd)

/-! Line-list views of the written chunks. -/

def headerLines : List String :=
  ["", "", "Here are the components available in the PDK", "", "", "Components",
   "============================="]

def sectionNoPlotLines (name : String) : List String :=
  ["", "", name, "----------------------------------------------------", "",
   dirLineFor name, ""]

def sectionPlotLines (name kwargs : String) : List String :=
  ["", "", name, "----------------------------------------------------", "",
   dirLineFor name, "", ".. plot::", "  :include-source:", "", "  import ubcpdk",
   "", getComponentLine name kwargs, "  c.plot()", ""]

def sectionLinesFor (name : String) (sig : List Param) (sp ss : List String) :
    List String :=
  if strMem name sp then sectionNoPlotLines name
  else sectionPlotLines name (kwargsText sig ss)

/-! ## Line decomposition of the emitted chunks -/

theorem headerText_peel (x : String) :
    linesOf (headerText ++ x) = headerLines ++ linesOf x := by
  have e : headerText =
      "\n" ++ ("\n" ++ ("Here are the components available in the PDK" ++
        ("\n" ++ ("\n" ++ ("\n" ++ ("Components" ++
        ("\n" ++ ("=============================" ++ "\n")))))))) := by decide
  rw [e]
  simp only [str_assoc]
  rw [linesOf_peel_nl, linesOf_peel_nl,
    linesOf_peel_seg "Here are the components available in the PDK" _ (by decide),
    linesOf_peel_nl, linesOf_peel_nl,
    linesOf_peel_seg "Components" _ (by decide),
    linesOf_peel_seg "=============================" _ (by decide)]
  rfl

theorem sectionNoPlot_peel (name x : String) (hn : nlFree name) :
    linesOf (sectionNoPlot name ++ x) = sectionNoPlotLines name ++ linesOf x := by
  have e1 : ("\n\n" : String) = "\n" ++ "\n" := by decide
  have e2 : ("\n----------------------------------------------------\n\n.. autofunction:: ubcpdk.components." : String) =
      "\n" ++ ("----------------------------------------------------" ++
        ("\n" ++ ("\n" ++ ".. autofunction:: ubcpdk.components."))) := by decide
  unfold sectionNoPlot
  simp only [e1, e2, str_assoc]
  rw [linesOf_peel_nl, linesOf_peel_nl,
    linesOf_peel_seg name _ hn,
    linesOf_peel_seg "----------------------------------------------------" _ (by decide),
    linesOf_peel_nl,
    linesOf_peel_seg2 ".. autofunction:: ubcpdk.components." name _ (by decide) hn,
    linesOf_peel_nl]
  rfl

theorem sectionPlot_peel (name kwargs x : String) (hn : nlFree name) (hk : nlFree kwargs) :
    linesOf (sectionPlot name kwargs ++ x) = sectionPlotLines name kwargs ++ linesOf x := by
  have e1 : ("\n\n" : String) = "\n" ++ "\n" := by decide
  have e2 : ("\n----------------------------------------------------\n\n.. autofunction:: ubcpdk.components." : String) =
      "\n" ++ ("----------------------------------------------------" ++
        ("\n" ++ ("\n" ++ ".. autofunction:: ubcpdk.components."))) := by decide
  have e3 : ("\n\n.. plot::\n  :include-source:\n\n  import ubcpdk\n\n  c = ubcpdk.PDK.get_component(\"" : String) =
      "\n" ++ ("\n" ++ (".. plot::" ++ ("\n" ++ ("  :include-source:" ++
        ("\n" ++ ("\n" ++ ("  import ubcpdk" ++
        ("\n" ++ ("\n" ++ "  c = ubcpdk.PDK.get_component(\""))))))))) := by decide
  have e4 : (")\n  c.plot()\n\n" : String) =
      ")" ++ ("\n" ++ ("  c.plot()" ++ ("\n" ++ "\n"))) := by decide
  unfold sectionPlot
  simp only [e1, e2, e3, e4, str_assoc]
  rw [linesOf_peel_nl, linesOf_peel_nl,
    linesOf_peel_seg name _ hn,
    linesOf_peel_seg "----------------------------------------------------" _ (by decide),
    linesOf_peel_nl,
    linesOf_peel_seg2 ".. autofunction:: ubcpdk.components." name _ (by decide) hn,
    linesOf_peel_nl,
    linesOf_peel_seg ".. plot::" _ (by decide),
    linesOf_peel_seg "  :include-source:" _ (by decide),
    linesOf_peel_nl,
    linesOf_peel_seg "  import ubcpdk" _ (by decide),
    linesOf_peel_nl,
    linesOf_peel_seg5 "  c = ubcpdk.PDK.get_component(\"" name "\", " kwargs ")" _
      (by decide) hn (by decide) hk (by decide),
    linesOf_peel_seg "  c.plot()" _ (by decide),
    linesOf_peel_nl]
  rfl

theorem sectionFor_peel (name : String) (sig : List Param) (sp ss : List String)
    (x : String) (hn : nlFree name) (hk : nlFree (kwargsText sig ss)) :
    linesOf (sectionFor name sig sp ss ++ x) =
      sectionLinesFor name sig sp ss ++ linesOf x := by
  unfold sectionFor sectionLinesFor
  by_cases h : strMem name sp
  · rw [if_pos h, if_pos h]
    exact sectionNoPlot_peel name x hn
  · rw [if_neg h, if_neg h]
    exact sectionPlot_peel name _ x hn hk

theorem joinChunks_sections_peel (ns : List String) (reg : List (String × List Param))
    (sp ss : List String) (x : String)
    (h : ∀ n ∈ ns, nlFree n ∧ nlFree (kwargsText (sigOf reg n) ss)) :
    linesOf (joinChunks (ns.map (fun n => sectionFor n (sigOf reg n) sp ss)) ++ x) =
      (ns.map (fun n => sectionLinesFor n (sigOf reg n) sp ss)).flatten ++ linesOf x := by
  induction ns with
  | nil =>
    simp only [List.map_nil, joinChunks, List.flatten_nil, List.nil_append]
    have : ("" : String) ++ x = x := str_ext (by rw [data_app]; rfl)
    rw [this]
  | cons n rest ih =>
    simp only [List.map_cons, joinChunks, List.flatten_cons, str_assoc]
    rw [sectionFor_peel n (sigOf reg n) sp ss _ (h n (List.mem_cons_self n rest)).1
      (h n (List.mem_cons_self n rest)).2,
      ih (fun m hm => h m (List.mem_cons_of_mem n hm))]
    simp [List.append_assoc]

/-- The complete line structure of the generated file. -/
theorem docFile_linesOf (reg : List (String × List Param)) (skip sp ss : List String)
    (h : ∀ n ∈ emittedNames reg skip, nlFree n ∧ nlFree (kwargsText (sigOf reg n) ss)) :
    linesOf (docFile reg skip sp ss) =
      headerLines ++
        ((emittedNames reg skip).map
          (fun n => sectionLinesFor n (sigOf reg n) sp ss)).flatten ++ [""] := by
  unfold docFile docSections
  rw [List.map_map]
  have : ((fun p : String × String => p.2) ∘ fun n =>
      (n, sectionFor n (sigOf reg n) sp ss)) = fun n => sectionFor n (sigOf reg n) sp ss := rfl
  rw [this, headerText_peel]
  have : joinChunks ((emittedNames reg skip).map (fun n => sectionFor n (sigOf reg n) sp ss)) =
      joinChunks ((emittedNames reg skip).map (fun n => sectionFor n (sigOf reg n) sp ss)) ++ "" :=
    (str_append_empty _).symm
  rw [this, joinChunks_sections_peel _ reg sp ss "" h, linesOf_empty, List.append_assoc]

/-! ## Facts about the emitted lines -/

theorem dirLine_head (n : String) : (dirLineFor n).data.head? = some '.' := by
  unfold dirLineFor
  rw [data_app]
  exact headQ_append (by decide)

theorem dirLine_length (n : String) : (dirLineFor n).length = 36 + n.length := by
  unfold dirLineFor
  rw [str_length_app]
  have h : (".. autofunction:: ubcpdk.components." : String).length = 36 := by decide
  omega

theorem dirLine_inj {a b : String} (h : dirLineFor a = dirLineFor b) : a = b := by
  unfold dirLineFor at h
  have h2 := congrArg String.data h
  rw [data_app, data_app] at h2
  exact str_ext (List.append_cancel_left h2)

theorem getComp_head (n k : String) : (getComponentLine n k).data.head? = some ' ' := by
  unfold getComponentLine
  rw [data_app, data_app, data_app, data_app]
  exact headQ_append (headQ_append (headQ_append (headQ_append (by decide))))

theorem getComp_length (n k : String) :
    (getComponentLine n k).length = 36 + n.length + k.length := by
  unfold getComponentLine
  rw [str_length_app, str_length_app, str_length_app, str_length_app]
  have h1 : ("  c = ubcpdk.PDK.get_component(\"" : String).length = 32 := by decide
  have h2 : ("\", " : String).length = 3 := by decide
  have h3 : (")" : String).length = 1 := by decide
  omega

/-- A registry name is identifier-like: made of alphanumeric characters
and underscores (as every Python function name in the `cells` registry is). -/
def identOkP (s : String) : Prop := ∀ c ∈ s.data, c.isAlphanum = true ∨ c = '_'

instance (s : String) : Decidable (identOkP s) := by
  unfold identOkP; infer_instance

theorem identOk_nlFree {s : String} (h : identOkP s) : nlFree s := by
  intro hm
  rcases h '\n' hm with h1 | h1
  · exact absurd h1 (by decide)
  · exact absurd h1 (by decide)

theorem ident_ne_of_head {s : String} (hid : identOkP s) (t : String) (c : Char)
    (ht : t.data.head? = some c) (h1 : c.isAlphanum = false) (h2 : c ≠ '_') : s ≠ t := by
  intro he
  subst he
  cases hs : s.data with
  | nil => rw [hs] at ht; cases ht
  | cons a as =>
    rw [hs] at ht
    injection ht with h3
    subst h3
    rcases hid a (hs ▸ List.mem_cons_self a as) with h4 | h4
    · rw [h4] at h1; cases h1
    · exact h2 h4

/-! Counting `autofunction` directive lines inside one section. -/

theorem countLine_dir_noPlot (name n2 : String) (hid : identOkP n2) :
    countLine (dirLineFor name) (sectionNoPlotLines n2) = if n2 = name then 1 else 0 := by
  have h0 : ("" : String) ≠ dirLineFor name :=
    ne_of_length (by rw [dirLine_length]; show (0 : Nat) ≠ _; omega)
  have hu : ("----------------------------------------------------" : String) ≠ dirLineFor name :=
    ne_of_data_head (by rw [dirLine_head]; decide)
  have hn2 : n2 ≠ dirLineFor name :=
    ident_ne_of_head hid _ '.' (dirLine_head name) (by decide) (by decide)
  by_cases he : n2 = name
  · subst he
    simp [sectionNoPlotLines, countLine, h0, hu, hn2]
  · have hd : dirLineFor n2 ≠ dirLineFor name := fun h => he (dirLine_inj h)
    simp [sectionNoPlotLines, countLine, h0, hu, hn2, hd, he]

theorem countLine_dir_plot (name n2 k2 : String) (hid : identOkP n2) :
    countLine (dirLineFor name) (sectionPlotLines n2 k2) = if n2 = name then 1 else 0 := by
  have h0 : ("" : String) ≠ dirLineFor name :=
    ne_of_length (by rw [dirLine_length]; show (0 : Nat) ≠ _; omega)
  have hu : ("----------------------------------------------------" : String) ≠ dirLineFor name :=
    ne_of_data_head (by rw [dirLine_head]; decide)
  have hplot : (".. plot::" : String) ≠ dirLineFor name := by
    apply ne_of_length
    rw [dirLine_length]
    have h : (".. plot::" : String).length = 9 := by decide
    omega
  have hinc : ("  :include-source:" : String) ≠ dirLineFor name :=
    ne_of_data_head (by rw [dirLine_head]; decide)
  have himp : ("  import ubcpdk" : String) ≠ dirLineFor name :=
    ne_of_data_head (by rw [dirLine_head]; decide)
  have hgc : getComponentLine n2 k2 ≠ dirLineFor name :=
    ne_of_data_head (by rw [dirLine_head, getComp_head]; decide)
  have hcp : ("  c.plot()" : String) ≠ dirLineFor name :=
    ne_of_data_head (by rw [dirLine_head]; decide)
  have hn2 : n2 ≠ dirLineFor name :=
    ident_ne_of_head hid _ '.' (dirLine_head name) (by decide) (by decide)
  by_cases he : n2 = name
  · subst he
    simp [sectionPlotLines, countLine, h0, hu, hplot, hinc, himp, hgc, hcp, hn2]
  · have hd : dirLineFor n2 ≠ dirLineFor name := fun h => he (dirLine_inj h)
    simp [sectionPlotLines, countLine, h0, hu, hplot, hinc, himp, hgc, hcp, hn2, hd, he]

theorem countLine_dir_section (name n2 k2 : String) (sp : List String) (hid : identOkP n2)
    (sig : List Param) (ss : List String) (hk : kwargsText sig ss = k2) :
    countLine (dirLineFor name) (sectionLinesFor n2 sig sp ss) = if n2 = name then 1 else 0 := by
  unfold sectionLinesFor
  by_cases h : strMem n2 sp
  · rw [if_pos h]; exact countLine_dir_noPlot name n2 hid
  · rw [if_neg h, hk]; exact countLine_dir_plot name n2 k2 hid

/-! ## Well-formedness of a registry -/

/-- Well-formedness of a parameter: its name and the `repr` of its
default fit on one line (always true of real Python signatures, where
`repr` of an `int`/`float`/`str`/`tuple` default never contains a raw
newline). -/
def ParamWF (p : Param) : Prop := nlFree p.name ∧ nlFree (reprDefault p.default)

instance (p : Param) : Decidable (ParamWF p) := by unfold ParamWF; infer_instance

/-- Well-formedness of a registry: unique keys (it models a `dict`),
identifier-like names, and well-formed parameters. -/
def RegistryWF (reg : List (String × List Param)) : Prop :=
  (reg.map Prod.fst).Nodup ∧ (∀ e ∈ reg, identOkP e.1) ∧
    ∀ e ∈ reg, ∀ p ∈ e.2, ParamWF p

instance (reg : List (String × List Param)) : Decidable (RegistryWF reg) := by
  unfold RegistryWF; infer_instance

theorem lookupSig_mem : ∀ (reg : List (String × List Param)) (n : String)
    (sig : List Param), lookupSig reg n = some sig → (n, sig) ∈ reg
  | [], _, _ => fun h => by cases h
  | (k, v) :: rest, n, sig => by
    intro h
    unfold lookupSig at h
    by_cases he : n = k
    · rw [if_pos he] at h
      injection h with h2
      subst he; subst h2
      exact List.mem_cons_self _ _
    · rw [if_neg he] at h
      exact List.mem_cons_of_mem _ (lookupSig_mem rest n sig h)

theorem mem_keys_lookup : ∀ (reg : List (String × List Param)) (n : String),
    n ∈ reg.map Prod.fst → ∃ sig, lookupSig reg n = some sig
  | [], n => fun h => by cases h
  | (k, v) :: rest, n => by
    intro h
    by_cases he : n = k
    · exact ⟨v, by unfold lookupSig; rw [if_pos he]⟩
    · rcases List.mem_cons.mp h with h2 | h2
      · exact absurd h2 he
      · obtain ⟨sig, hs⟩ := mem_keys_lookup rest n h2
        exact ⟨sig, by unfold lookupSig; rw [if_neg he]; exact hs⟩

theorem sigOf_WF {reg : List (String × List Param)} {n : String}
    (hwf : RegistryWF reg) (hn : n ∈ reg.map Prod.fst) :
    ∀ p ∈ sigOf reg n, ParamWF p := by
  obtain ⟨sig, hs⟩ := mem_keys_lookup reg n hn
  unfold sigOf
  rw [hs]
  exact hwf.2.2 (n, sig) (lookupSig_mem reg n sig hs)

theorem kwargsList_nlFree : ∀ (sig : List Param) (ss : List String),
    (∀ p ∈ sig, ParamWF p) → ∀ s ∈ kwargsList sig ss, nlFree s
  | [], _ => fun _ _ h => by cases h
  | p :: ps, ss => by
    intro hwf s hs
    unfold kwargsList at hs
    by_cases hc : isPrimDefault p.default && !(strMem p.name ss)
    · rw [if_pos hc] at hs
      rcases List.mem_cons.mp hs with h | h
      · subst h
        have hp := hwf p (List.mem_cons_self p ps)
        exact nlFree_app (nlFree_app hp.1 (by decide)) hp.2
      · exact kwargsList_nlFree ps ss (fun q hq => hwf q (List.mem_cons_of_mem p hq)) s h
    · rw [if_neg hc] at hs
      exact kwargsList_nlFree ps ss (fun q hq => hwf q (List.mem_cons_of_mem p hq)) s hs

theorem joinComma_nlFree : ∀ l : List String, (∀ s ∈ l, nlFree s) → nlFree (joinComma l)
  | [] => fun _ => by decide
  | [s] => fun h => by
    unfold joinComma
    exact h s (List.mem_cons_self s [])
  | s :: t :: rest => fun h => by
    unfold joinComma
    exact nlFree_app (nlFree_app (h s (List.mem_cons_self s _)) (by decide))
      (joinComma_nlFree (t :: rest) (fun u hu => h u (List.mem_cons_of_mem s hu)))

theorem kwargsText_nlFree (sig : List Param) (ss : List String)
    (h : ∀ p ∈ sig, ParamWF p) : nlFree (kwargsText sig ss) :=
  joinComma_nlFree _ (kwargsList_nlFree sig ss h)

theorem emitted_sub_keys {reg : List (String × List Param)} {skip : List String}
    {n : String} (h : n ∈ emittedNames reg skip) : n ∈ reg.map Prod.fst := by
  unfold emittedNames sortedKeys at h
  exact (List.mem_insertionSort strLeP).mp (List.mem_filter.mp h).1

theorem emitted_ident {reg : List (String × List Param)} {skip : List String}
    {n : String} (hwf : RegistryWF reg) (h : n ∈ emittedNames reg skip) : identOkP n := by
  obtain ⟨e, he, hfst⟩ := List.mem_map.mp (emitted_sub_keys h)
  exact hfst ▸ hwf.2.1 e he

theorem emitted_nlFree_of_WF {reg : List (String × List Param)} {skip ss : List String}
    (hwf : RegistryWF reg) :
    ∀ n ∈ emittedNames reg skip, nlFree n ∧ nlFree (kwargsText (sigOf reg n) ss) :=
  fun n hn => ⟨identOk_nlFree (emitted_ident hwf hn),
    kwargsText_nlFree _ _ (sigOf_WF hwf (emitted_sub_keys hn))⟩

/-! ## Claim C1 -/

theorem docSections_fst (reg : List (String × List Param)) (skip sp ss : List String) :
    (docSections reg skip sp ss).map Prod.fst = emittedNames reg skip := by
  unfold docSections
  rw [List.map_map]
  exact List.map_id _

theorem emitted_nodup {reg : List (String × List Param)} {skip : List String}
    (hwf : RegistryWF reg) : (emittedNames reg skip).Nodup := by
  unfold emittedNames sortedKeys
  exact ((List.perm_insertionSort strLeP (reg.map Prod.fst)).symm.nodup hwf.1).filter _

theorem mem_emitted {reg : List (String × List Param)} {skip : List String} {name : String}
    (hmem : name ∈ reg.map Prod.fst) (hskip : strMem name skip = false)
    (hus : startsWithUnderscore name = false) : name ∈ emittedNames reg skip := by
  unfold emittedNames sortedKeys
  exact List.mem_filter.mpr ⟨(List.mem_insertionSort strLeP).mpr hmem,
    by rw [hskip, hus]; rfl⟩

theorem countLine_dir_header (name : String) :
    countLine (dirLineFor name) headerLines = 0 := by
  have h0 : ("" : String) ≠ dirLineFor name :=
    ne_of_length (by rw [dirLine_length]; show (0 : Nat) ≠ _; omega)
  have h1 : ("Here are the components available in the PDK" : String) ≠ dirLineFor name :=
    ne_of_data_head (by rw [dirLine_head]; decide)
  have h2 : ("Components" : String) ≠ dirLineFor name :=
    ne_of_data_head (by rw [dirLine_head]; decide)
  have h3 : ("=============================" : String) ≠ dirLineFor name :=
    ne_of_data_head (by rw [dirLine_head]; decide)
  simp [headerLines, countLine, h0, h1, h2, h3]

/-- C1: for every registry name that is not in the skip set and does not
begin with an underscore, the generated file contains exactly one section
headed by that name (exactly one emitted section carries that name) and
exactly one `autofunction` directive line referencing it, and the emitted
sections appear in lexicographic (code point) order of the names. -/
theorem C1_unique_section_and_directive_sorted
    (reg : List (String × List Param)) (skip sp ss : List String) (name : String)
    (hwf : RegistryWF reg) (hmem : name ∈ reg.map Prod.fst)
    (hskip : strMem name skip = false) (hus : startsWithUnderscore name = false) :
    countLine name ((docSections reg skip sp ss).map Prod.fst) = 1 ∧
    countLine (dirLineFor name) (linesOf (docFile reg skip sp ss)) = 1 ∧
    List.Sorted strLeP ((docSections reg skip sp ss).map Prod.fst) := by
  have hmem' : name ∈ emittedNames reg skip := mem_emitted hmem hskip hus
  have hnd : (emittedNames reg skip).Nodup := emitted_nodup hwf
  refine ⟨?_, ?_, ?_⟩
  · rw [docSections_fst]
    exact countLine_eq_one hnd hmem'
  · rw [docFile_linesOf reg skip sp ss (emitted_nlFree_of_WF hwf)]
    rw [countLine_append, countLine_append, countLine_dir_header, countLine_flatten,
      List.map_map]
    have hmap : (emittedNames reg skip).map
        ((countLine (dirLineFor name)) ∘ (fun n => sectionLinesFor n (sigOf reg n) sp ss)) =
        (emittedNames reg skip).map (fun n2 => if n2 = name then 1 else 0) := by
      apply List.map_congr_left
      intro n2 hn2
      exact countLine_dir_section name n2 (kwargsText (sigOf reg n2) ss) sp
        (emitted_ident hwf hn2) (sigOf reg n2) ss rfl
    rw [hmap, countLine_sum_ite]
    have hone : countLine name (emittedNames reg skip) = 1 := countLine_eq_one hnd hmem'
    have hlast : countLine (dirLineFor name) [""] = 0 := by
      have h0 : ("" : String) ≠ dirLineFor name :=
        ne_of_length (by rw [dirLine_length]; show (0 : Nat) ≠ _; omega)
      simp [countLine, h0]
    omega
  · rw [docSections_fst]
    unfold emittedNames sortedKeys
    exact (List.sorted_insertionSort strLeP _).filter _

/-- Concrete registry used by several witnesses. -/
def regW : List (String × List Param) :=
  [("b", []), ("a", [{ name := "w", default := some (.bool true) }])]

theorem C1_unique_section_and_directive_sorted_witness :
    countLine "a" ((docSections regW [] [] []).map Prod.fst) = 1 ∧
    countLine (dirLineFor "a") (linesOf (docFile regW [] [] [])) = 1 ∧
    List.Sorted strLeP ((docSections regW [] [] []).map Prod.fst) :=
  C1_unique_section_and_directive_sorted regW [] [] [] "a" (by decide) (by decide)
    rfl rfl

/-! ## Claim C5 -/

theorem linesOf_sectionNoPlot (name : String) (hn : nlFree name) :
    linesOf (sectionNoPlot name) = sectionNoPlotLines name ++ [""] := by
  rw [← str_append_empty (sectionNoPlot name), sectionNoPlot_peel name "" hn, linesOf_empty]

theorem linesOf_sectionPlot (name kwargs : String) (hn : nlFree name) (hk : nlFree kwargs) :
    linesOf (sectionPlot name kwargs) = sectionPlotLines name kwargs ++ [""] := by
  rw [← str_append_empty (sectionPlot name kwargs), sectionPlot_peel name kwargs "" hn hk,
    linesOf_empty]

/-- C5: a documented name in the plot-skip set gets a block holding only the
cross-reference directive (no plot block); any other documented name gets the
directive plus exactly one plot block with the fixed import line, the
reconstruction call and the plot invocation. -/
theorem C5_plot_skip_branches
    (name : String) (sig : List Param) (sp ss : List String)
    (hid : identOkP name) (hk : nlFree (kwargsText sig ss)) :
    (strMem name sp = true →
      sectionFor name sig sp ss = sectionNoPlot name ∧
      countLine ".. plot::" (linesOf (sectionNoPlot name)) = 0) ∧
    (strMem name sp = false →
      sectionFor name sig sp ss = sectionPlot name (kwargsText sig ss) ∧
      countLine ".. plot::" (linesOf (sectionPlot name (kwargsText sig ss))) = 1 ∧
      countLine "  import ubcpdk" (linesOf (sectionPlot name (kwargsText sig ss))) = 1 ∧
      countLine (getComponentLine name (kwargsText sig ss))
        (linesOf (sectionPlot name (kwargsText sig ss))) = 1 ∧
      countLine "  c.plot()" (linesOf (sectionPlot name (kwargsText sig ss))) = 1) := by
  have hn : nlFree name := identOk_nlFree hid
  have hname_plot : name ≠ ".. plot::" :=
    ident_ne_of_head hid _ '.' (by decide) (by decide) (by decide)
  have hdir_plot : dirLineFor name ≠ ".. plot::" := by
    apply ne_of_length
    rw [dirLine_length]
    have h : (".. plot::" : String).length = 9 := by decide
    omega
  constructor
  · intro hsp
    refine ⟨by unfold sectionFor; rw [if_pos hsp], ?_⟩
    rw [linesOf_sectionNoPlot name hn]
    simp [sectionNoPlotLines, countLine, hname_plot, hdir_plot]
  · intro hsp
    have hbr : sectionFor name sig sp ss = sectionPlot name (kwargsText sig ss) := by
      unfold sectionFor
      rw [if_neg (by simp [hsp])]
    refine ⟨hbr, ?_, ?_, ?_, ?_⟩ <;>
      rw [linesOf_sectionPlot name (kwargsText sig ss) hn hk]
    · have hgc : getComponentLine name (kwargsText sig ss) ≠ ".. plot::" :=
        ne_of_data_head (by rw [getComp_head]; decide)
      simp [sectionPlotLines, countLine, hname_plot, hdir_plot, hgc]
    · have himp : name ≠ "  import ubcpdk" :=
        ident_ne_of_head hid _ ' ' (by decide) (by decide) (by decide)
      have hdir : dirLineFor name ≠ "  import ubcpdk" :=
        ne_of_data_head (by rw [dirLine_head]; decide)
      have hgc : getComponentLine name (kwargsText sig ss) ≠ "  import ubcpdk" := by
        apply ne_of_length
        rw [getComp_length]
        have h : ("  import ubcpdk" : String).length = 15 := by decide
        omega
      simp [sectionPlotLines, countLine, himp, hdir, hgc]
    · have h0 : ("" : String) ≠ getComponentLine name (kwargsText sig ss) :=
        ne_of_length (by rw [getComp_length]; show (0 : Nat) ≠ _; omega)
      have hname : name ≠ getComponentLine name (kwargsText sig ss) :=
        ident_ne_of_head hid _ ' ' (getComp_head _ _) (by decide) (by decide)
      have hu : ("----------------------------------------------------" : String) ≠
          getComponentLine name (kwargsText sig ss) :=
        ne_of_data_head (by rw [getComp_head]; decide)
      have hdir : dirLineFor name ≠ getComponentLine name (kwargsText sig ss) :=
        ne_of_data_head (by rw [dirLine_head, getComp_head]; decide)
      have hplot : (".. plot::" : String) ≠ getComponentLine name (kwargsText sig ss) :=
        ne_of_data_head (by rw [getComp_head]; decide)
      have hinc : ("  :include-source:" : String) ≠ getComponentLine name (kwargsText sig ss) := by
        apply ne_of_length
        rw [getComp_length]
        have h : ("  :include-source:" : String).length = 18 := by decide
        omega
      have himp : ("  import ubcpdk" : String) ≠ getComponentLine name (kwargsText sig ss) := by
        apply ne_of_length
        rw [getComp_length]
        have h : ("  import ubcpdk" : String).length = 15 := by decide
        omega
      have hcp : ("  c.plot()" : String) ≠ getComponentLine name (kwargsText sig ss) := by
        apply ne_of_length
        rw [getComp_length]
        have h : ("  c.plot()" : String).length = 10 := by decide
        omega
      simp [sectionPlotLines, countLine, h0, hname, hu, hdir, hplot, hinc, himp, hcp]
    · have hname : name ≠ "  c.plot()" :=
        ident_ne_of_head hid _ ' ' (by decide) (by decide) (by decide)
      have hdir : dirLineFor name ≠ "  c.plot()" :=
        ne_of_data_head (by rw [dirLine_head]; decide)
      have hgc : getComponentLine name (kwargsText sig ss) ≠ "  c.plot()" := by
        apply ne_of_length
        rw [getComp_length]
        have h : ("  c.plot()" : String).length = 10 := by decide
        omega
      simp [sectionPlotLines, countLine, hname, hdir, hgc]

theorem C5_plot_skip_branches_witness :
    (strMem "a" [] = true →
      sectionFor "a" [{ name := "w", default := some (.bool true) }] [] [] = sectionNoPlot "a" ∧
      countLine ".. plot::" (linesOf (sectionNoPlot "a")) = 0) ∧
    (strMem "a" [] = false →
      sectionFor "a" [{ name := "w", default := some (.bool true) }] [] [] =
        sectionPlot "a" (kwargsText [{ name := "w", default := some (.bool true) }] []) ∧
      countLine ".. plot::"
        (linesOf (sectionPlot "a" (kwargsText [{ name := "w", default := some (.bool true) }] []))) = 1 ∧
      countLine "  import ubcpdk"
        (linesOf (sectionPlot "a" (kwargsText [{ name := "w", default := some (.bool true) }] []))) = 1 ∧
      countLine (getComponentLine "a" (kwargsText [{ name := "w", default := some (.bool true) }] []))
        (linesOf (sectionPlot "a" (kwargsText [{ name := "w", default := some (.bool true) }] []))) = 1 ∧
      countLine "  c.plot()"
        (linesOf (sectionPlot "a" (kwargsText [{ name := "w", default := some (.bool true) }] []))) = 1) :=
  C5_plot_skip_branches "a" [{ name := "w", default := some (.bool true) }] [] []
    (by decide) (by decide)

/-! ## Claims C2 and C9 -/

theorem strMem_iff (s : String) : ∀ l : List String, strMem s l = true ↔ s ∈ l
  | [] => by simp [strMem]
  | t :: rest => by
    unfold strMem
    by_cases h : s = t
    · simp [h]
    · simp [h, strMem_iff s rest]

theorem kwargsList_eq (sig : List Param) (ss : List String) :
    kwargsList sig ss =
      (sig.filter (fun p => isPrimDefault p.default && !(strMem p.name ss))).map
        (fun p => p.name ++ "=" ++ reprDefault p.default) := by
  induction sig with
  | nil => rfl
  | cons p ps ih =>
    unfold kwargsList
    by_cases h : (isPrimDefault p.default && !(strMem p.name ss)) = true
    · rw [if_pos h, List.filter_cons, if_pos h, List.map_cons, ih]
    · rw [if_neg h, List.filter_cons, if_neg h, ih]

/-- C2: the synthesized keyword-argument list consists of exactly the
parameters whose default is a primitive scalar/tuple value and whose name is
not settings-skipped, rendered `name=repr(default)`, in declaration order
(it is a sublist of the full rendered parameter list), and it is what the
section's reconstruction call uses. -/
theorem C2_kwargs_exact
    (name : String) (sig : List Param) (sp ss : List String)
    (hsp : strMem name sp = false) :
    sectionFor name sig sp ss = sectionPlot name (joinComma (kwargsList sig ss)) ∧
    kwargsList sig ss =
      (sig.filter (fun p => decide (isPrimDefault p.default = true ∧ p.name ∉ ss))).map
        (fun p => p.name ++ "=" ++ reprDefault p.default) ∧
    (kwargsList sig ss).Sublist
      (sig.map (fun p => p.name ++ "=" ++ reprDefault p.default)) := by
  refine ⟨?_, ?_, ?_⟩
  · unfold sectionFor
    rw [if_neg (by simp [hsp])]
    rfl
  · rw [kwargsList_eq]
    congr 1
    apply List.filter_congr
    intro p _
    cases h1 : isPrimDefault p.default <;> cases h2 : strMem p.name ss <;>
      simp [h1, ← strMem_iff, h2]
  · rw [kwargsList_eq]
    exact (List.filter_sublist sig).map _

theorem C2_kwargs_exact_witness :
    sectionFor "a" [{ name := "w", default := some (.bool true) }] [] ["w"] =
      sectionPlot "a" (joinComma (kwargsList [{ name := "w", default := some (.bool true) }] ["w"])) ∧
    kwargsList [{ name := "w", default := some (.bool true) }] ["w"] =
      (([{ name := "w", default := some (.bool true) }] : List Param).filter
        (fun p => decide (isPrimDefault p.default = true ∧ p.name ∉ (["w"] : List String)))).map
        (fun p => p.name ++ "=" ++ reprDefault p.default) ∧
    (kwargsList [{ name := "w", default := some (.bool true) }] ["w"]).Sublist
      (([{ name := "w", default := some (.bool true) }] : List Param).map
        (fun p => p.name ++ "=" ++ reprDefault p.default)) :=
  C2_kwargs_exact "a" [{ name := "w", default := some (.bool true) }] [] ["w"] rfl

/-- C9 (implicit): a parameter is rendered iff it has a default that is an
`int` (including `bool`), `float`, `str` or `tuple` instance and is not
settings-skipped; parameters with no default, or with a `None`, `list` or
`dict` default, are omitted. -/
theorem C9_default_type_filter :
    (∀ (sig : List Param) (ss : List String),
      kwargsList sig ss =
        (sig.filter (fun p => isPrimDefault p.default && !(strMem p.name ss))).map
          (fun p => p.name ++ "=" ++ reprDefault p.default)) ∧
    isPrimDefault none = false ∧
    isPrimDefault (some .pynone) = false ∧
    (∀ vs, isPrimDefault (some (.list vs)) = false) ∧
    (∀ ps, isPrimDefault (some (.dict ps)) = false) ∧
    (∀ b, isPrimDefault (some (.bool b)) = true) ∧
    (∀ n, isPrimDefault (some (.int n)) = true) ∧
    (∀ s, isPrimDefault (some (.float s)) = true) ∧
    (∀ s, isPrimDefault (some (.str s)) = true) ∧
    (∀ vs, isPrimDefault (some (.tuple vs)) = true) ∧
    (∀ (sig : List Param) (ss : List String),
      ((sig.filter (fun p => isPrimDefault p.default && !(strMem p.name ss))).all
        (fun p => isPrimDefault p.default)) = true) := by
  refine ⟨kwargsList_eq, rfl, rfl, fun _ => rfl, fun _ => rfl, fun _ => rfl, fun _ => rfl,
    fun _ => rfl, fun _ => rfl, fun _ => rfl, ?_⟩
  intro sig ss
  rw [List.all_eq_true]
  intro p hp
  have h := (List.mem_filter.mp hp).2
  simp only [Bool.and_eq_true] at h
  exact h.1

/-! ## Claim C6 -/

theorem lookupSig_cons (k : String) (v : List Param) (rest : List (String × List Param))
    (n : String) : lookupSig ((k, v) :: rest) n = if n = k then some v else lookupSig rest n :=
  rfl

theorem lookupSig_perm {r1 r2 : List (String × List Param)} (h : r1.Perm r2)
    (hnd : (r1.map Prod.fst).Nodup) (n : String) : lookupSig r1 n = lookupSig r2 n := by
  induction h with
  | nil => rfl
  | cons x h ih =>
    obtain ⟨k, v⟩ := x
    rw [lookupSig_cons, lookupSig_cons]
    by_cases he : n = k
    · rw [if_pos he, if_pos he]
    · rw [if_neg he, if_neg he]
      rw [List.map_cons] at hnd
      exact ih (List.nodup_cons.mp hnd).2
  | swap x y l =>
    obtain ⟨kx, vx⟩ := x
    obtain ⟨ky, vy⟩ := y
    rw [List.map_cons, List.map_cons] at hnd
    have hne : ky ≠ kx := by
      intro he
      exact (List.nodup_cons.mp hnd).1 (by rw [he]; exact List.mem_cons_self _ _)
    rw [lookupSig_cons, lookupSig_cons, lookupSig_cons, lookupSig_cons]
    by_cases h1 : n = ky <;> by_cases h2 : n = kx
    · subst h1; exact absurd h2 hne
    · rw [if_pos h1, if_neg h2, if_pos h1]
    · rw [if_neg h1, if_pos h2, if_pos h2]
    · rw [if_neg h1, if_neg h2, if_neg h2, if_neg h1]
  | trans h1 h2 ih1 ih2 =>
    rw [ih1 hnd, ih2 ((h1.map Prod.fst).nodup hnd)]

/-- C6: the generator is deterministic — a second run on the same registry
gives the byte-identical file — and the output depends only on the
registry's contents, not on the mapping's iteration order (which the
lexicographic sort fixes). -/
theorem C6_deterministic_and_order_independent
    (reg1 reg2 : List (String × List Param)) (skip sp ss : List String)
    (hperm : reg1.Perm reg2) (hnd : (reg1.map Prod.fst).Nodup) :
    docFile reg1 skip sp ss = docFile reg1 skip sp ss ∧
    docFile reg1 skip sp ss = docFile reg2 skip sp ss := by
  refine ⟨rfl, ?_⟩
  have hkeys : sortedKeys reg1 = sortedKeys reg2 :=
    List.eq_of_perm_of_sorted
      (((List.perm_insertionSort strLeP _).trans (hperm.map Prod.fst)).trans
        (List.perm_insertionSort strLeP _).symm)
      (List.sorted_insertionSort strLeP _)
      (List.sorted_insertionSort strLeP _)
  have hsig : ∀ n, sigOf reg1 n = sigOf reg2 n := fun n => by
    unfold sigOf
    rw [lookupSig_perm hperm hnd n]
  have hfun : (fun n => (n, sectionFor n (sigOf reg1 n) sp ss)) =
      (fun n => (n, sectionFor n (sigOf reg2 n) sp ss)) :=
    funext fun n => by rw [hsig n]
  unfold docFile docSections emittedNames
  rw [hkeys, hfun]

def regWswap : List (String × List Param) :=
  [("a", [{ name := "w", default := some (.bool true) }]), ("b", [])]

theorem C6_deterministic_and_order_independent_witness :
    docFile regW [] [] [] = docFile regW [] [] [] ∧
    docFile regW [] [] [] = docFile regWswap [] [] [] :=
  C6_deterministic_and_order_independent regW regWswap [] [] []
    (List.Perm.swap
      (("a", [{ name := "w", default := some (.bool true) }]) : String × List Param)
      (("b", []) : String × List Param) [])
    (by decide)

/-! ## Claim C7 -/

/-- The example registry of the spec scenario:
`{"bend90": fn(radius=10, width=0.5)}`. -/
def reg7 : List (String × List Param) :=
  [("bend90", [{ name := "radius", default := some (.int 10) },
               { name := "width", default := some (.float "0.5") }])]

/-- C7: with that registry and empty skip sets, the generated section for
`bend90` contains the exact reconstruction line
`  c = ubcpdk.PDK.get_component("bend90", radius=10, width=0.5)`. -/
theorem C7_example_scenario_line :
    kwargsText (sigOf reg7 "bend90") [] = "radius=10, width=0.5" ∧
    getComponentLine "bend90" "radius=10, width=0.5" =
      "  c = ubcpdk.PDK.get_component(\"bend90\", radius=10, width=0.5)" ∧
    "  c = ubcpdk.PDK.get_component(\"bend90\", radius=10, width=0.5)" ∈
      linesOf (docFile reg7 [] [] []) :=
  ⟨by decide, by decide, by decide⟩

/-! ## Claim C8 -/

theorem strMem_cons (s t : String) (l : List String) :
    strMem s (t :: l) = if s = t then true else strMem s l := rfl

theorem kwargsList_skip_absent : ∀ (sig : List Param) (ss : List String) (e : String),
    (∀ p ∈ sig, p.name ≠ e) → kwargsList sig (e :: ss) = kwargsList sig ss
  | [], _, _ => fun _ => rfl
  | p :: ps, ss, e => by
    intro h
    have hne : p.name ≠ e := h p (List.mem_cons_self p ps)
    unfold kwargsList
    rw [strMem_cons, if_neg hne,
      kwargsList_skip_absent ps ss e (fun q hq => h q (List.mem_cons_of_mem p hq))]

/-- C8: an entry of `skip`, `skip_plot` or `skip_settings` that does not
occur in the registry (resp. in any callable's parameter list) raises no
error and has no effect: the generated file is unchanged. -/
theorem C8_absent_skip_entries_noop
    (reg : List (String × List Param)) (skip sp ss : List String) (e : String)
    (he : e ∉ reg.map Prod.fst)
    (hp : ∀ nv ∈ reg, ∀ p ∈ nv.2, p.name ≠ e) :
    docFile reg (e :: skip) sp ss = docFile reg skip sp ss ∧
    docFile reg skip (e :: sp) ss = docFile reg skip sp ss ∧
    docFile reg skip sp (e :: ss) = docFile reg skip sp ss := by
  have hkeys : ∀ n ∈ sortedKeys reg, n ≠ e := by
    intro n hn hne
    subst hne
    exact he ((List.mem_insertionSort strLeP).mp hn)
  have hsig : ∀ n ∈ sortedKeys reg, ∀ p ∈ sigOf reg n, p.name ≠ e := by
    intro n hn p hpmem
    cases hcase : lookupSig reg n with
    | none =>
      have h0 : sigOf reg n = [] := by unfold sigOf; rw [hcase]; rfl
      rw [h0] at hpmem
      cases hpmem
    | some sig =>
      have h0 : sigOf reg n = sig := by unfold sigOf; rw [hcase]; rfl
      rw [h0] at hpmem
      exact hp (n, sig) (lookupSig_mem reg n sig hcase) p hpmem
  refine ⟨?_, ?_, ?_⟩
  · have hem : emittedNames reg (e :: skip) = emittedNames reg skip := by
      unfold emittedNames
      apply List.filter_congr
      intro n hn
      rw [strMem_cons, if_neg (hkeys n hn)]
    unfold docFile docSections
    rw [hem]
  · have hmap : (emittedNames reg skip).map
        (fun n => (n, sectionFor n (sigOf reg n) (e :: sp) ss)) =
        (emittedNames reg skip).map (fun n => (n, sectionFor n (sigOf reg n) sp ss)) := by
      apply List.map_congr_left
      intro n hn
      have hn' : n ∈ sortedKeys reg := by
        unfold emittedNames at hn
        exact (List.mem_filter.mp hn).1
      have hsec : sectionFor n (sigOf reg n) (e :: sp) ss =
          sectionFor n (sigOf reg n) sp ss := by
        unfold sectionFor
        rw [strMem_cons, if_neg (hkeys n hn')]
      rw [hsec]
    unfold docFile docSections
    rw [hmap]
  · have hmap : (emittedNames reg skip).map
        (fun n => (n, sectionFor n (sigOf reg n) sp (e :: ss))) =
        (emittedNames reg skip).map (fun n => (n, sectionFor n (sigOf reg n) sp ss)) := by
      apply List.map_congr_left
      intro n hn
      have hn' : n ∈ sortedKeys reg := by
        unfold emittedNames at hn
        exact (List.mem_filter.mp hn).1
      have hsec : sectionFor n (sigOf reg n) sp (e :: ss) =
          sectionFor n (sigOf reg n) sp ss := by
        unfold sectionFor kwargsText
        rw [kwargsList_skip_absent (sigOf reg n) ss e (hsig n hn')]
      rw [hsec]
    unfold docFile docSections
    rw [hmap]

theorem C8_absent_skip_entries_noop_witness :
    docFile regW ["ghost"] [] [] = docFile regW [] [] [] ∧
    docFile regW [] ["ghost"] [] = docFile regW [] [] [] ∧
    docFile regW [] [] ["ghost"] = docFile regW [] [] [] :=
  C8_absent_skip_entries_noop regW [] [] [] "ghost" (by decide) (by decide)

/-! ## The component generator (src/ubc/bend90.py)

The geometry engine (`pp`, the external layout library) and the layer
table (`ubc/layers.py`, not included under src/) are modelled from the
spec: a layer is a named integer tag; a cell is a container with a
bounding-box centre, label children, pin markers and ports; the
circular-bend primitive is an abstract constructor supplied by the
environment (`Geometry`). -/

/-- Modelled from the spec: `ubc/layers.py` is not under src/; the spec
describes a layer-name constant table ("a named integer tag identifying
a fabrication/drawing layer").  Only the identity of the three named
layers matters here; the numeric values are representative. -/
def LAYER.WG : Nat := 1

def LAYER.DEVREC : Nat := 68

def LAYER.PORT : Nat := 12

/-- A text label child of a cell. -/
structure Label where
  text : String
  position : ℚ × ℚ
  layer : Nat
deriving DecidableEq

/-- A pin/port marker placed by `add_pins`. -/
structure Pin where
  port : String
  layer : Nat
deriving DecidableEq

/-- Modelled from the spec: a cell is "an opaque geometric object ...
attributes include bounding-box center coordinates, and supports
in-place annotation".  `x`/`y` are the bounding-box centre (labels do
not contribute to the bounding box, so adding children leaves them
unchanged). -/
structure Cell where
  x : ℚ
  y : ℚ
  labels : List Label
  pins : List Pin
  ports : List String
deriving DecidableEq

/-- Modelled from the spec: the external geometry primitives interface —
"external functions for constructing a circular bend shape".
`bend_circular` takes radius, width, layer, layers_cladding and
cladding_offset and returns a cell. -/
structure Geometry where
  bend_circular : ℚ → ℚ → Nat → List Nat → ℚ → Cell

/-- Modelled from the spec: `pp.c.label(text=..., position=..., layer=...)`. -/
def label (text : String) (position : ℚ × ℚ) (layer : Nat) : Label :=
  { text := text, position := position, layer := layer }

/-- `c.add(...)`: appends a child label to the cell. -/
def Cell.add (c : Cell) (l : Label) : Cell := { c with labels := c.labels ++ [l] }

/-- Modelled from the spec: `pp.add_pins(c, layer=...)` "attaches
port-pin markers on a fixed annotation layer" — one marker per port of
the cell, on the given layer. -/
def add_pins (c : Cell) (layer : Nat) : Cell :=
  { c with pins := c.pins ++ c.ports.map (fun p => { port := p, layer := layer }) }

/-- Round to the nearest integer, ties to even — the rounding of
Python's fixed-point formatting, computed on the exact rational. -/
def roundHalfEven (q : ℚ) : ℤ :=
  let n := q.num
  let d := (q.den : ℤ)
  let f := n.fdiv d
  let r := n - f * d
  if 2 * r < d then f
  else if d < 2 * r then f + 1
  else if f % 2 = 0 then f else f + 1

/-- The three digits after the decimal point of `{:.3f}` (for a
fractional part `n < 1000`). -/
def digits3 (n : Nat) : String :=
  String.mk [Nat.digitChar (n / 100 % 10), Nat.digitChar (n / 10 % 10), Nat.digitChar (n % 10)]

/-- Python's `f"{q:.3f}"` on the exact rational `q`: the value rounded
to three decimal places (ties to even), rendered with exactly three
digits after the decimal point. -/
def fmt3 (q : ℚ) : String :=
  (if roundHalfEven (q * 1000) < 0 then "-" else "") ++
    natStr ((roundHalfEven (q * 1000)).natAbs / 1000) ++ "." ++
    digits3 ((roundHalfEven (q * 1000)).natAbs % 1000)

def bendLibText : String := "Lumerical_INTERCONNECT_library=Design kits/EBeam"

def bendCompText : String := "Lumerical_INTERCONNECT_component=ebeam_bend_1550"

def spiceText (radius width : ℚ) : String :=
  "Spice_param:radius=" ++ fmt3 radius ++ "u wg_width=" ++ fmt3 width ++ "u"

/-- `bend90(radius, width)` (defaults `radius=10, width=0.5`): builds the
circular-bend cell, attaches the three metadata labels at the cell
centre with 0.1 vertical steps, and adds the port pins.  The external
`@pp.autoname` decorator only renames the cell (a naming side effect of
the external framework) and is not part of the geometry. -/
def bend90 (g : Geometry) (radius width : ℚ) : Cell :=
  let c := g.bend_circular radius width LAYER.WG [LAYER.DEVREC] 1
  let labels : List String :=
    [bendLibText, bendCompText, spiceText radius width]
  let c2 := (labels.enum).foldl
    (fun c it => c.add (label it.2 (c.x, c.y + (it.1 : ℚ) * (1 / 10)) LAYER.DEVREC)) c
  add_pins c2 LAYER.PORT

/-! Unfolding helpers for `bend90` (the fold over the three labels is
definitionally transparent since adding children preserves the centre). -/

theorem bend90_labels_raw (g : Geometry) (radius width : ℚ) :
    (bend90 g radius width).labels =
      (g.bend_circular radius width LAYER.WG [LAYER.DEVREC] 1).labels ++
        [label bendLibText
          ((g.bend_circular radius width LAYER.WG [LAYER.DEVREC] 1).x,
           (g.bend_circular radius width LAYER.WG [LAYER.DEVREC] 1).y + ((0 : ℕ) : ℚ) * (1 / 10))
          LAYER.DEVREC,
         label bendCompText
          ((g.bend_circular radius width LAYER.WG [LAYER.DEVREC] 1).x,
           (g.bend_circular radius width LAYER.WG [LAYER.DEVREC] 1).y + ((1 : ℕ) : ℚ) * (1 / 10))
          LAYER.DEVREC,
         label (spiceText radius width)
          ((g.bend_circular radius width LAYER.WG [LAYER.DEVREC] 1).x,
           (g.bend_circular radius width LAYER.WG [LAYER.DEVREC] 1).y + ((2 : ℕ) : ℚ) * (1 / 10))
          LAYER.DEVREC] := by
  have e : (bend90 g radius width).labels =
      (((g.bend_circular radius width LAYER.WG [LAYER.DEVREC] 1).labels ++
        [label bendLibText
          ((g.bend_circular radius width LAYER.WG [LAYER.DEVREC] 1).x,
           (g.bend_circular radius width LAYER.WG [LAYER.DEVREC] 1).y + ((0 : ℕ) : ℚ) * (1 / 10))
          LAYER.DEVREC]) ++
        [label bendCompText
          ((g.bend_circular radius width LAYER.WG [LAYER.DEVREC] 1).x,
           (g.bend_circular radius width LAYER.WG [LAYER.DEVREC] 1).y + ((1 : ℕ) : ℚ) * (1 / 10))
          LAYER.DEVREC]) ++
        [label (spiceText radius width)
          ((g.bend_circular radius width LAYER.WG [LAYER.DEVREC] 1).x,
           (g.bend_circular radius width LAYER.WG [LAYER.DEVREC] 1).y + ((2 : ℕ) : ℚ) * (1 / 10))
          LAYER.DEVREC] := rfl
  rw [e]
  simp [List.append_assoc]

theorem bend90_pins_raw (g : Geometry) (radius width : ℚ) :
    (bend90 g radius width).pins =
      (g.bend_circular radius width LAYER.WG [LAYER.DEVREC] 1).pins ++
        (g.bend_circular radius width LAYER.WG [LAYER.DEVREC] 1).ports.map
          (fun p => { port := p, layer := LAYER.PORT }) := rfl

/-! ## Digit rendering facts -/

theorem digitChar_isDigit_of_lt {k : Nat} (h : k < 10) : (Nat.digitChar k).isDigit = true := by
  interval_cases k <;> decide

theorem digitChar_ne_dot_of_lt {k : Nat} (h : k < 10) : Nat.digitChar k ≠ '.' := by
  interval_cases k <;> decide

theorem natDigitsAux_chars : ∀ (fuel n : Nat) (acc : List Char) (c : Char),
    c ∈ natDigitsAux fuel n acc → c ∈ acc ∨ ∃ k, k < 10 ∧ c = Nat.digitChar k
  | 0, _, _, _ => fun h => Or.inl h
  | fuel + 1, n, acc, c => by
    intro h
    unfold natDigitsAux at h
    by_cases hn : n < 10
    · rw [if_pos hn] at h
      rcases List.mem_cons.mp h with h | h
      · exact Or.inr ⟨n, hn, h⟩
      · exact Or.inl h
    · rw [if_neg hn] at h
      rcases natDigitsAux_chars fuel (n / 10) _ c h with h | h
      · rcases List.mem_cons.mp h with h | h
        · exact Or.inr ⟨n % 10, Nat.mod_lt n (by omega), h⟩
        · exact Or.inl h
      · exact Or.inr h

theorem natStr_ne_dot (n : Nat) : ∀ c ∈ (natStr n).data, c ≠ '.' := by
  intro c hc
  rcases natDigitsAux_chars (n + 1) n [] c hc with h | ⟨k, hk, he⟩
  · cases h
  · exact he ▸ digitChar_ne_dot_of_lt hk

/-- `{:.3f}` always renders an integer part without a dot, then a dot,
then exactly three decimal digits. -/
theorem fmt3_shape (q : ℚ) : ∃ ip frac : String,
    fmt3 q = ip ++ "." ++ frac ∧ frac.length = 3 ∧
    (∀ c ∈ frac.data, c.isDigit = true) ∧ ∀ c ∈ ip.data, c ≠ '.' := by
  refine ⟨(if roundHalfEven (q * 1000) < 0 then "-" else "") ++
      natStr ((roundHalfEven (q * 1000)).natAbs / 1000),
    digits3 ((roundHalfEven (q * 1000)).natAbs % 1000), rfl, rfl, ?_, ?_⟩
  · intro c hc
    have hm : c ∈ [Nat.digitChar ((roundHalfEven (q * 1000)).natAbs % 1000 / 100 % 10),
        Nat.digitChar ((roundHalfEven (q * 1000)).natAbs % 1000 / 10 % 10),
        Nat.digitChar ((roundHalfEven (q * 1000)).natAbs % 1000 % 10)] := hc
    rcases List.mem_cons.mp hm with h | hm
    · exact h ▸ digitChar_isDigit_of_lt (Nat.mod_lt _ (by omega))
    rcases List.mem_cons.mp hm with h | hm
    · exact h ▸ digitChar_isDigit_of_lt (Nat.mod_lt _ (by omega))
    rcases List.mem_cons.mp hm with h | hm
    · exact h ▸ digitChar_isDigit_of_lt (Nat.mod_lt _ (by omega))
    · cases hm
  · intro c hc
    rw [data_app] at hc
    rcases List.mem_append.mp hc with h | h
    · by_cases hr : roundHalfEven (q * 1000) < 0
      · rw [if_pos hr] at h
        have : c = '-' := List.mem_singleton.mp h
        subst this
        decide
      · rw [if_neg hr] at h
        cases h
    · exact natStr_ne_dot _ c h

/-! ## Claim C3 -/

/-- C3: for positive radius and width (and with the external bend
primitive supplying a fresh cell that has ports), `bend90` returns a cell
with exactly three metadata label children, all on the design-rule layer
`LAYER.DEVREC`, and at least one pin marker, all on `LAYER.PORT`. -/
theorem C3_bend90_labels_and_pins (g : Geometry) (radius width : ℚ)
    (h1 : 0 < radius) (h2 : 0 < width)
    (hl : (g.bend_circular radius width LAYER.WG [LAYER.DEVREC] 1).labels = [])
    (hpins : (g.bend_circular radius width LAYER.WG [LAYER.DEVREC] 1).pins = [])
    (hports : (g.bend_circular radius width LAYER.WG [LAYER.DEVREC] 1).ports ≠ []) :
    (bend90 g radius width).labels.length = 3 ∧
    (∀ l ∈ (bend90 g radius width).labels, l.layer = LAYER.DEVREC) ∧
    (bend90 g radius width).pins ≠ [] ∧
    (∀ p ∈ (bend90 g radius width).pins, p.layer = LAYER.PORT) := by
  refine ⟨?_, ?_, ?_, ?_⟩
  · rw [bend90_labels_raw, hl]
    rfl
  · intro l hmem
    rw [bend90_labels_raw, hl] at hmem
    simp only [List.nil_append, List.mem_cons, List.not_mem_nil, or_false] at hmem
    rcases hmem with h | h | h <;> rw [h] <;> rfl
  · rw [bend90_pins_raw, hpins]
    intro hcon
    apply hports
    simpa using hcon
  · intro p hp
    rw [bend90_pins_raw, hpins] at hp
    simp only [List.nil_append, List.mem_map] at hp
    obtain ⟨a, _, he⟩ := hp
    rw [← he]

/-- A concrete geometry backend for the witnesses. -/
def geomW : Geometry :=
  ⟨fun _ _ _ _ _ => { x := 0, y := 0, labels := [], pins := [], ports := ["o1", "o2"] }⟩

theorem C3_bend90_labels_and_pins_witness :
    (bend90 geomW 1 1).labels.length = 3 ∧
    (∀ l ∈ (bend90 geomW 1 1).labels, l.layer = LAYER.DEVREC) ∧
    (bend90 geomW 1 1).pins ≠ [] ∧
    (∀ p ∈ (bend90 geomW 1 1).pins, p.layer = LAYER.PORT) :=
  C3_bend90_labels_and_pins geomW 1 1 zero_lt_one zero_lt_one rfl rfl (by decide)

/-! ## Claim C4 -/

/-- C4: the parameter-string label attached by `bend90` is exactly
`Spice_param:radius={radius:.3f}u wg_width={width:.3f}u`: radius and
width are formatted with exactly three decimal digits, each followed by
the unit suffix `u`. -/
theorem C4_spice_label_three_decimals (g : Geometry) (radius width : ℚ) :
    (bend90 g radius width).labels.map Label.text =
      (g.bend_circular radius width LAYER.WG [LAYER.DEVREC] 1).labels.map Label.text ++
        [bendLibText, bendCompText,
         "Spice_param:radius=" ++ fmt3 radius ++ "u wg_width=" ++ fmt3 width ++ "u"] ∧
    (∃ ip frac : String, fmt3 radius = ip ++ "." ++ frac ∧ frac.length = 3 ∧
      (∀ c ∈ frac.data, c.isDigit = true) ∧ ∀ c ∈ ip.data, c ≠ '.') ∧
    (∃ ip frac : String, fmt3 width = ip ++ "." ++ frac ∧ frac.length = 3 ∧
      (∀ c ∈ frac.data, c.isDigit = true) ∧ ∀ c ∈ ip.data, c ≠ '.') := by
  refine ⟨?_, fmt3_shape radius, fmt3_shape width⟩
  rw [bend90_labels_raw, List.map_append]
  rfl

/-! ## Claim C10 -/

/-- C10 (implicit): the three labels sit at the cell's bounding-box
centre x, at vertical offsets 0, 0.1 and 0.2 from the centre y, in the
order library identifier, component identifier, parameter string, all on
`LAYER.DEVREC`. -/
theorem C10_label_positions (g : Geometry) (radius width : ℚ) :
    (bend90 g radius width).labels =
      (g.bend_circular radius width LAYER.WG [LAYER.DEVREC] 1).labels ++
        [label bendLibText
          ((g.bend_circular radius width LAYER.WG [LAYER.DEVREC] 1).x,
           (g.bend_circular radius width LAYER.WG [LAYER.DEVREC] 1).y) LAYER.DEVREC,
         label bendCompText
          ((g.bend_circular radius width LAYER.WG [LAYER.DEVREC] 1).x,
           (g.bend_circular radius width LAYER.WG [LAYER.DEVREC] 1).y + 1 / 10) LAYER.DEVREC,
         label (spiceText radius width)
          ((g.bend_circular radius width LAYER.WG [LAYER.DEVREC] 1).x,
           (g.bend_circular radius width LAYER.WG [LAYER.DEVREC] 1).y + 1 / 5) LAYER.DEVREC] := by
  rw [bend90_labels_raw]
  have e0 : ((0 : ℕ) : ℚ) * (1 / 10) = 0 := by norm_num
  have e1 : ((1 : ℕ) : ℚ) * (1 / 10) = 1 / 10 := by norm_num
  have e2 : ((2 : ℕ) : ℚ) * (1 / 10) = 1 / 5 := by norm_num
  rw [e0, e1, e2, add_zero]
